import Mathlib

/-!
Verification of the cea-live query/aggregation backend against its
natural-language specification.

The definitions below are a shallow embedding of the JavaScript backend:

* the `transactions` row shape and the SQL `WHERE` clauses built by the
  Express handlers in `backend/src/optimizedServer` (filter splicing,
  `COUNT(*)`, time-series bucketing, top-agents roll-up);
* the `LRUCache` class of `backend/src/cache.js`;
* `getCacheKey` / the `res.json` wrapper of
  `backend/src/middleware/cacheMiddleware.js`;
* `generateETag` / `etagMiddleware` of
  `backend/src/middleware/etagMiddleware.js`;
* the `top_agents` pre-computation SQL (from the repository README's
  precompute script).

SQL fragments are translated to list-level semantics over an in-memory
table; JavaScript `Map` insertion-order semantics are modelled as lists
of entries; machine integers carry no overflow here (all counts are
small), so `Nat`/`Int` are used directly.
-/

set_option autoImplicit false

namespace CeaLive

/-- A row of the `transactions` table (all columns are nullable TEXT;
`id INTEGER PRIMARY KEY` is omitted: nothing below touches it). -/
structure Row where
  salesperson_name : Option String
  transaction_date : Option String
  salesperson_reg_num : Option String
  property_type : Option String
  transaction_type : Option String
  represented : Option String
  town : Option String
  district : Option String
  general_location : Option String
  deriving DecidableEq, Repr

/-- Column lookup by name, as SQLite resolves an identifier appearing in a
`WHERE` clause. Unknown names do not resolve (preparation fails); here the
lookup returns `none`, and the prepare-check `prepareOk` below accounts for
the failure separately. -/
def Row.col (r : Row) (k : String) : Option String :=
  if k = "salesperson_name" then r.salesperson_name
  else if k = "transaction_date" then r.transaction_date
  else if k = "salesperson_reg_num" then r.salesperson_reg_num
  else if k = "property_type" then r.property_type
  else if k = "transaction_type" then r.transaction_type
  else if k = "represented" then r.represented
  else if k = "town" then r.town
  else if k = "district" then r.district
  else if k = "general_location" then r.general_location
  else none

/-- The filter keys the specification allows:
`{property_type, transaction_type, represented, town, district}`. -/
def allowedFilterKeys : List String :=
  ["property_type", "transaction_type", "represented", "town", "district"]

/-- A value of one key of a parsed `filters` JSON object: a scalar string
or an array of strings. -/
inductive FilterValue where
  | scalar (s : String)
  | values (ss : List String)
  deriving DecidableEq, Repr

/-- A parsed `filters` JSON object, in key order. -/
abbrev FilterObj := List (String × FilterValue)

/-- One spliced SQL `WHERE` conjunct: `col = ?` or `col IN (?, …)`.
The column name comes verbatim from the filter key. -/
inductive SqlClause where
  | eq (column : String) (param : String)
  | isIn (column : String) (params : List String)
  deriving DecidableEq, Repr

def SqlClause.column : SqlClause → String
  | .eq c _ => c
  | .isIn c _ => c

/-- The clause spliced for one filter entry: array value becomes
`key IN (…)`, scalar becomes `key = ?`. -/
def clauseOf (kv : String × FilterValue) : SqlClause :=
  match kv.2 with
  | .scalar s => .eq kv.1 s
  | .values ss => .isIn kv.1 ss

/-- The `WHERE` builder every handler repeats: one clause per filter
entry, conjoined with `AND`. -/
def buildWhereClauses (f : FilterObj) : List SqlClause :=
  f.map clauseOf

/-- SQLite evaluation of one spliced conjunct against a row: a `NULL`
column compares as unknown, hence excludes the row; `IN` over an empty
list is false. -/
def evalClause (r : Row) : SqlClause → Bool
  | .eq k s =>
    match r.col k with
    | some x => x = s
    | none => false
  | .isIn k ss =>
    match r.col k with
    | some x => ss.contains x
    | none => false

/-- `SELECT COUNT(*) as total FROM transactions WHERE …` with the spliced
conjuncts, as computed for the `pagination.total` field of `/data`. -/
def dataEndpointTotal (rows : List Row) (f : FilterObj) : Nat :=
  (rows.filter (fun r => (buildWhereClauses f).all (evalClause r))).length

/-- The specification's filter predicate, written from the spec's words
(kept separate from the source-derived `evalClause` on purpose):
conjunction across keys; a scalar demands equality, an array demands
membership. -/
def specMatches (r : Row) (f : FilterObj) : Bool :=
  f.all (fun kv =>
    match kv.2 with
    | .scalar s => r.col kv.1 = some s
    | .values ss =>
      match r.col kv.1 with
      | some x => ss.contains x
      | none => false)

/-! ### ETag middleware (`etagMiddleware.js`) -/

/-- Response as left by the `res.json` wrapper of the ETag middleware. -/
structure EtagResponse where
  status : Nat
  body : Option String
  etag : Option String
  deriving DecidableEq, Repr

/-- `generateETag`: the quoted hex digest of the serialized body. The MD5
primitive lives in Node's `crypto` library, outside this repository, so it
is a parameter `md5hex`; everything proved below holds for the real digest
function in particular. -/
def generateETag (md5hex : String → String) (serialized : String) : String :=
  "\"" ++ md5hex serialized ++ "\""

/-- The wrapped `res.json(body)` of `etagMiddleware` for a GET request:
compute the tag, attach it, and either suppress the body with a 304 (when
`If-None-Match` equals the tag) or pass the body through with the prior
status code. -/
def etagJson (md5hex : String → String) (ifNoneMatch : Option String)
    (priorStatus : Nat) (serialized : String) : EtagResponse :=
  let etag := generateETag md5hex serialized
  if ifNoneMatch = some etag then
    { status := 304, body := none, etag := some etag }
  else
    { status := priorStatus, body := some serialized, etag := some etag }

/-! ### Cache key (`cacheMiddleware.js`) -/

/-- `getCacheKey`: the method and the *raw* request line
(`req.originalUrl`), joined by a colon. No canonicalization happens. -/
def getCacheKey (method url : String) : String := method ++ ":" ++ url

/-- Split a character list on a separator character. -/
def splitOnChar (c : Char) (l : List Char) : List (List Char) :=
  l.foldr
    (fun ch acc =>
      if ch = c then [] :: acc
      else
        match acc with
        | [] => [[ch]]
        | a :: as => (ch :: a) :: as)
    [[]]

/-- The `name=value` fragments of a URL's query string: everything after
the first `?`, split on `&`. Used only to state that two URLs carry the
same parameter-value pairs. -/
def queryParams (url : String) : List String :=
  ((splitOnChar '&' ((url.data.dropWhile (· ≠ '?')).drop 1)).map
    (fun l => String.mk l))

/-! ### LRU cache (`cache.js`)

A JavaScript `Map` preserves insertion order; `map.set` on an existing key
overwrites in place (keeping the position) and otherwise appends;
`map.keys().next().value` is the first (oldest-position) key. The cache
state is modelled as the entry list in `Map` iteration order, front first,
together with the configuration and counters. -/

structure CacheEntry where
  key : String
  value : String
  expiry : Nat
  deriving DecidableEq, Repr

/-- `map.get(k)`. -/
def mapGet (es : List CacheEntry) (k : String) : Option CacheEntry :=
  es.find? (fun e => e.key = k)

/-- `map.delete(k)` (keys are unique in a `Map`; dropping every match is
the same operation and needs no uniqueness invariant). -/
def mapDelete (es : List CacheEntry) (k : String) : List CacheEntry :=
  es.filter (fun e => e.key ≠ k)

/-- `map.has(k)`. -/
def mapHas (es : List CacheEntry) (k : String) : Bool :=
  es.any (fun e => e.key = k)

/-- `map.set(k, v)`: overwrite in place if present, else append. -/
def mapSet (es : List CacheEntry) (k : String) (v : String) (exp : Nat) :
    List CacheEntry :=
  if mapHas es k then
    es.map (fun e => if e.key = k then ⟨k, v, exp⟩ else e)
  else
    es ++ [⟨k, v, exp⟩]

structure LRUState where
  entries : List CacheEntry
  maxSize : Nat
  ttl : Nat
  hits : Nat
  misses : Nat
  deriving DecidableEq, Repr

def LRUState.init (maxSize ttl : Nat) : LRUState :=
  { entries := [], maxSize := maxSize, ttl := ttl, hits := 0, misses := 0 }

/-- `LRUCache.get(key)` at wall-clock `now` (`Date.now()`): miss on
absence; expired entries (`now > expiry`) are deleted and count as a miss;
a hit moves the entry to the most-recently-used end (`delete` + `set`). -/
def LRUState.get (st : LRUState) (k : String) (now : Nat) :
    Option String × LRUState :=
  match mapGet st.entries k with
  | none => (none, { st with misses := st.misses + 1 })
  | some item =>
    if now > item.expiry then
      (none,
       { st with
           entries := mapDelete st.entries k
           misses := st.misses + 1 })
    else
      (some item.value,
       { st with
           entries := mapSet (mapDelete st.entries k) k item.value item.expiry
           hits := st.hits + 1 })

/-- `customTTL || this.ttl`: in JavaScript both `undefined` and `0` are
falsy, so only a nonzero custom TTL overrides the default. -/
def resolveTTL (customTTL : Option Nat) (ttl : Nat) : Nat :=
  match customTTL with
  | some t => if t = 0 then ttl else t
  | none => ttl

/-- `LRUCache.set(key, value, customTTL)` at wall-clock `now`: when at
capacity and the key is new, the first (`Map`-front) key is evicted before
inserting. -/
def LRUState.set (st : LRUState) (k : String) (v : String)
    (customTTL : Option Nat) (now : Nat) : LRUState :=
  let es :=
    if st.entries.length ≥ st.maxSize ∧ mapHas st.entries k = false then
      st.entries.tail
    else
      st.entries
  { st with entries := mapSet es k v (now + resolveTTL customTTL st.ttl) }

/-- One cache operation of a client interleaving, with its wall-clock
instant. -/
inductive CacheOp where
  | opGet (k : String) (now : Nat)
  | opSet (k : String) (v : String) (customTTL : Option Nat) (now : Nat)
  deriving DecidableEq, Repr

def LRUState.step (st : LRUState) : CacheOp → LRUState
  | .opGet k now => (st.get k now).2
  | .opSet k v c now => st.set k v c now

def runOps (st : LRUState) (ops : List CacheOp) : LRUState :=
  ops.foldl LRUState.step st

/-- `apiCache`: 200 entries, 10-minute TTL (milliseconds). -/
def apiCacheInit : LRUState := LRUState.init 200 (10 * 60 * 1000)

/-- `statsCache`: 50 entries, 30-minute TTL (milliseconds). -/
def statsCacheInit : LRUState := LRUState.init 50 (30 * 60 * 1000)

/-! ### Cache middleware (`cacheMiddleware.js`) -/

/-- Both process-global pools. -/
structure CachePools where
  api : LRUState
  stats : LRUState
  deriving DecidableEq, Repr

/-- `includes` on strings (JavaScript `String.prototype.includes`). -/
def strIncludes (s pat : String) : Bool := decide (pat.data <:+: s.data)

/-- `selectCache`: stats pool for the heavy analytics paths, api pool
otherwise. -/
def selectStats (path : String) : Bool :=
  strIncludes path "/stats" || strIncludes path "/insights" ||
  strIncludes path "/analytics" || strIncludes path "/timeseries" ||
  strIncludes path "/agents"

/-- The wrapped `res.json(body)` installed by `cacheMiddleware` on a
cache miss: store the body under the request's key in the selected pool
if and only if the handler's status code is in `[200, 300)`. -/
def cacheMiddlewareJson (pools : CachePools) (path key : String)
    (statusCode : Nat) (body : String) (now : Nat) : CachePools :=
  if 200 ≤ statusCode ∧ statusCode < 300 then
    if selectStats path then
      { pools with stats := pools.stats.set key body none now }
    else
      { pools with api := pools.api.set key body none now }
  else
    pools

/-! ### Generic insertion sort

Deterministic realization of SQL `ORDER BY`. The SQL engine guarantees
only that the output is *some* reordering consistent with the `ORDER BY`
key; a stable insertion sort realizes one such reordering, and the
order-only properties are also stated relationally where the claim hinges
on tie order. -/

def insertLe {α : Type} (le : α → α → Bool) (x : α) : List α → List α
  | [] => [x]
  | y :: ys => if le x y then x :: y :: ys else y :: insertLe le x ys

def sortLe {α : Type} (le : α → α → Bool) : List α → List α
  | [] => []
  | x :: xs => insertLe le x (sortLe le xs)

theorem perm_insertLe {α : Type} (le : α → α → Bool) (x : α) :
    ∀ l : List α, (insertLe le x l).Perm (x :: l)
  | [] => List.Perm.refl _
  | y :: ys => by
    unfold insertLe
    by_cases h : le x y = true
    · simp [h]
    · simp only [h, if_false]
      exact ((perm_insertLe le x ys).cons y).trans (List.Perm.swap x y ys)

theorem perm_sortLe {α : Type} (le : α → α → Bool) :
    ∀ l : List α, (sortLe le l).Perm l
  | [] => List.Perm.refl _
  | x :: xs =>
    (perm_insertLe le x (sortLe le xs)).trans ((perm_sortLe le xs).cons x)

theorem length_sortLe {α : Type} (le : α → α → Bool) (l : List α) :
    (sortLe le l).length = l.length :=
  (perm_sortLe le l).length_eq

theorem chain_insertLe {α : Type} (le : α → α → Bool)
    (htot : ∀ a b, le a b = true ∨ le b a = true) (x : α) :
    ∀ l : List α, List.Chain' (fun a b => le a b = true) l →
      List.Chain' (fun a b => le a b = true) (insertLe le x l)
  | [], _ => List.chain'_singleton x
  | y :: ys, h => by
    unfold insertLe
    by_cases hxy : le x y = true
    · simpa [hxy] using h
    · have hyx : le y x = true := (htot x y).resolve_left hxy
      rw [if_neg hxy]
      have hys := h.tail
      have hins := chain_insertLe le htot x ys hys
      cases ys with
      | nil => exact List.chain'_cons.2 ⟨hyx, List.chain'_singleton x⟩
      | cons z zs =>
        unfold insertLe
        by_cases hxz : le x z = true
        · rw [if_pos hxz]
          exact List.chain'_cons.2 ⟨hyx, List.chain'_cons.2 ⟨hxz, h.tail⟩⟩
        · rw [if_neg hxz]
          rw [List.chain'_cons]
          refine ⟨(List.chain'_cons.1 h).1, ?_⟩
          have hins2 := hins
          unfold insertLe at hins2
          rw [if_neg hxz] at hins2
          exact hins2

theorem chain_sortLe {α : Type} (le : α → α → Bool)
    (htot : ∀ a b, le a b = true ∨ le b a = true) :
    ∀ l : List α, List.Chain' (fun a b => le a b = true) (sortLe le l)
  | [] => List.chain'_nil
  | x :: xs => chain_insertLe le htot x _ (chain_sortLe le htot xs)

/-! ### Time-series bucketing (`/api/datasets/:id/timeseries`) -/

/-- The fixed month table (`MONTH_MAP` of `dateParser.js`, identical to
the `CASE substr(transaction_date, 1, 3) …` expression in the SQL). -/
def MONTH_MAP : List (String × String) :=
  [("JAN", "01"), ("FEB", "02"), ("MAR", "03"), ("APR", "04"),
   ("MAY", "05"), ("JUN", "06"), ("JUL", "07"), ("AUG", "08"),
   ("SEP", "09"), ("OCT", "10"), ("NOV", "11"), ("DEC", "12")]

def monthLookup (m : String) : Option String :=
  (MONTH_MAP.find? (fun p => p.1 = m)).map (fun p => p.2)

/-- SQLite `substr(s, 1, 3)`. -/
def strTake3 (s : String) : String := ⟨s.data.take 3⟩

/-- SQLite `substr(s, -4)`: the last four characters. -/
def strLast4 (s : String) : String := ⟨(s.data.reverse.take 4).reverse⟩

/-- The month period expression
`substr(d, -4) || '-' || CASE substr(d, 1, 3) … END`: SQL concatenation
with the `NULL` of a fall-through `CASE` is `NULL`. -/
def periodExprMonth (d : String) : Option String :=
  (monthLookup (strTake3 d)).map (fun m => strLast4 d ++ "-" ++ m)

/-- The spliced period expression: `substr(d, -4)` when `period = 'year'`,
the month form otherwise (the handler defaults `period` to `'month'`). -/
def periodExpr (period : String) (d : String) : Option String :=
  if period = "year" then some (strLast4 d) else periodExprMonth d

/-- The dates admitted by
`WHERE transaction_date IS NOT NULL AND transaction_date != '-'`. -/
def includedDates (rows : List Row) : List String :=
  rows.filterMap (fun r =>
    match r.transaction_date with
    | none => none
    | some d => if d = "-" then none else some d)

/-- SQL ascending comparison with `NULL` first, as `ORDER BY period` sorts
a nullable TEXT expression. -/
def optLe : Option String → Option String → Bool
  | none, _ => true
  | some _, none => false
  | some a, some b => decide (a ≤ b)

theorem optLe_total (a b : Option String) :
    optLe a b = true ∨ optLe b a = true := by
  cases a with
  | none => exact Or.inl rfl
  | some x =>
    cases b with
    | none => exact Or.inr rfl
    | some y =>
      rcases le_total x y with h | h
      · exact Or.inl (by simpa [optLe] using h)
      · exact Or.inr (by simpa [optLe] using h)

/-- `SELECT period, COUNT(*) … GROUP BY period ORDER BY period` over the
admitted rows: one entry per distinct period value (a `NULL` period from
an unmappable month prefix forms its own group), counted, ascending. -/
def timeseriesSeries (period : String) (rows : List Row) :
    List (Option String × Nat) :=
  let ps := (includedDates rows).map (periodExpr period)
  (sortLe optLe ps.dedup).map (fun k => (k, (ps.filter (· = k)).length))

/-! ### Single-dimension analytics (`/api/datasets/:id/analytics`) -/

/-- `COALESCE(dim, 'Unknown')`. -/
def coalesceUnknown (v : Option String) : String := v.getD "Unknown"

def dimValues (rows : List Row) (dim : String) : List String :=
  rows.map (fun r => coalesceUnknown (r.col dim))

/-- The grouped counts produced by `GROUP BY dim`: one pair per distinct
coalesced value. -/
def groupCounts (vals : List String) : List (String × Nat) :=
  vals.dedup.map (fun v => (v, (vals.filter (· = v)).length))

/-- `ORDER BY count DESC`: counts never increase along the output. -/
def countDescOrder (out : List (String × Nat)) : Prop :=
  List.Chain' (fun a b => b.2 ≤ a.2) out

/-- The relational semantics of the 1-D analytics query: any output SQLite
may return, i.e. any arrangement of the grouped counts that is sorted by
count descending. The `ORDER BY` has no secondary key, so the relative
order of equal counts is not constrained. -/
def validAnalyticsResult (rows : List Row) (dim : String)
    (out : List (String × Nat)) : Prop :=
  out.Perm (groupCounts (dimValues rows dim)) ∧ countDescOrder out

/-- The spec's tie rule, written from the spec's words: entries with equal
counts appear in ascending order of their dimension value. -/
def tiesAscending (out : List (String × Nat)) : Prop :=
  List.Pairwise (fun a b => a.2 = b.2 → a.1 < b.1) out

/-! ### Top-agents roll-up (`/api/datasets/:id/agents/top`)

Both paths of the endpoint, restricted to the comparable projection of the
response body (ranking fields, the four per-agent "top X" fields and the
statistics block). SQL `ORDER BY totalTransactions DESC` fixes only the
count order; the stable insertion sort realizes one admissible order, and
the claims settled below do not depend on the tie choice (their concrete
inputs are tie-free). -/

/-- The base `WHERE` both the `top_agents` precompute (README script) and
the slow path share: `salesperson_reg_num IS NOT NULL AND != '-' AND != ''`. -/
def nonSentinelReg (r : Row) : Bool :=
  match r.salesperson_reg_num with
  | none => false
  | some s => !(s = "-") && !(s = "")

def agentRows (rows : List Row) : List Row := rows.filter nonSentinelReg

/-- The `GROUP BY salesperson_reg_num, salesperson_name` key of one
admitted row. -/
def agentKeyOf (r : Row) : String × Option String :=
  (r.salesperson_reg_num.getD "", r.salesperson_name)

def agentKeys (rows : List Row) : List (String × Option String) :=
  (agentRows rows).map agentKeyOf

/-- `MAX(transaction_date)` of a group: SQL `MAX` ignores `NULL`s and is
`NULL` on an all-`NULL` group; TEXT compares lexicographically. -/
def sqlMaxDate (rs : List Row) : Option String :=
  rs.foldl
    (fun acc r =>
      match r.transaction_date, acc with
      | none, a => a
      | some d, none => some d
      | some d, some a => some (if a ≤ d then d else a))
    none

/-- One row of the pre-computed `top_agents` table. -/
structure TopAgentRow where
  regNum : String
  name : Option String
  totalTransactions : Nat
  lastTransaction : Option String
  deriving DecidableEq, Repr

def byTotalDesc (a b : TopAgentRow) : Bool :=
  b.totalTransactions ≤ a.totalTransactions

/-- `CREATE TABLE top_agents AS SELECT … GROUP BY salesperson_reg_num,
salesperson_name ORDER BY totalTransactions DESC` (README precompute
script). -/
def topAgentsTable (rows : List Row) : List TopAgentRow :=
  sortLe byTotalDesc
    ((agentKeys rows).dedup.map (fun key =>
      let grp := (agentRows rows).filter (fun r => agentKeyOf r = key)
      { regNum := key.1, name := key.2, totalTransactions := grp.length,
        lastTransaction := sqlMaxDate grp }))

/-- The `WITH ranked AS (… ROW_NUMBER() OVER (PARTITION BY
salesperson_reg_num ORDER BY COUNT(*) DESC) …) SELECT … WHERE rank = 1`
pattern, for one agent and one projected column: the grouped counts of the
projected values over that agent's rows, with the rank-1 (maximal-count)
group selected. Tie choice of `ROW_NUMBER` is unspecified; the first
maximal group in scan order realizes one admissible choice. -/
def topValueFor (rows : List Row) (reg : String) (proj : Row → Option String) :
    Option (Option String × Nat) :=
  let vals := (rows.filter (fun r => r.salesperson_reg_num = some reg)).map proj
  match vals.dedup.map (fun v => (v, (vals.filter (· = v)).length)) with
  | [] => none
  | g :: gs => some (gs.foldl (fun acc y => if acc.2 < y.2 then y else acc) g)

/-- The top-towns batch query additionally has `AND town != '-'`
(a `NULL` town also fails the inequality). -/
def topTownFor (rows : List Row) (reg : String) : Option (Option String × Nat) :=
  topValueFor
    (rows.filter (fun r =>
      match r.town with
      | some t => !(t = "-")
      | none => false))
    reg Row.town

/-- Per-agent entry of the response (comparable projection: the slow
path's extra empty breakdown stubs and the fast path's `lastTransaction`
spread are omitted; they differ between the paths as well). -/
structure AgentDetail where
  regNum : String
  name : Option String
  totalTransactions : Nat
  topPropertyType : Option String × Nat
  topTransactionType : Option String × Nat
  topRepresentation : Option String × Nat
  topTown : Option (Option String × Nat)
  deriving DecidableEq, Repr

/-- `(num / den).toFixed(0)` then `parseFloat`, on exact rationals
(the handlers guard `den = 0` to `0`); half-up rounding. Both paths use
the identical expression, so float artifacts cancel in any comparison. -/
def jsToFixed0 (num den : Nat) : Nat :=
  if den = 0 then 0 else (2 * num + den) / (2 * den)

/-- `(num / den * 100).toFixed(1)` then `parseFloat`, in tenths of a
percent on exact rationals; the handlers guard `den = 0` to `'0.0'`. -/
def pctTenths (num den : Nat) : Nat :=
  if den = 0 then 0 else (2 * num * 1000 + den) / (2 * den)

structure TopAgentsStatistics where
  averageTransactions : Nat
  topAgentMarketShareTenths : Nat
  top10MarketShareTenths : Nat
  totalTransactions : Nat
  deriving DecidableEq, Repr

structure TopAgentsResponse where
  total : Nat
  showing : Nat
  agents : List AgentDetail
  statistics : TopAgentsStatistics
  deriving DecidableEq, Repr

/-- `const { limit = 50 } = req.query`: destructuring default. -/
def effectiveLimit (limitParam : Option Nat) : Nat := limitParam.getD 50

/-- The fast path (no `filters`, no `search`): read the pre-computed
`top_agents` table (`ORDER BY totalTransactions DESC LIMIT ?`), batch only
the top-property-type and top-transaction-type window queries, and pin
`topRepresentation` to `['Unknown', 0]`, `topTown` to `null`, and both
market-share statistics to `0`. -/
def topAgentsFastPath (table : List TopAgentRow) (rows : List Row)
    (limitParam : Option Nat) : TopAgentsResponse :=
  let lim := effectiveLimit limitParam
  let top := (sortLe byTotalDesc table).take lim
  let agents : List AgentDetail := top.map (fun a =>
    { regNum := a.regNum
      name := a.name
      totalTransactions := a.totalTransactions
      topPropertyType :=
        (topValueFor rows a.regNum Row.property_type).getD (some "Unknown", 0)
      topTransactionType :=
        (topValueFor rows a.regNum Row.transaction_type).getD (some "Unknown", 0)
      topRepresentation := (some "Unknown", 0)
      topTown := none })
  let totalTx := (agents.map (fun a => a.totalTransactions)).sum
  { total := table.length
    showing := agents.length
    agents := agents
    statistics :=
      { averageTransactions := jsToFixed0 totalTx agents.length
        topAgentMarketShareTenths := 0
        top10MarketShareTenths := 0
        totalTransactions := totalTx } }

/-- The slow path, with the empty filter object and no search forced (the
configuration the fast-slow equivalence clause compares): group the
non-sentinel-agent rows by `(regNum, name)`, order by count descending
with `LIMIT`, run all four batch window queries, and compute the market
shares from the shown agents' counts. -/
def topAgentsSlowPath (rows : List Row) (limitParam : Option Nat) :
    TopAgentsResponse :=
  let lim := effectiveLimit limitParam
  let groups := (agentKeys rows).dedup.map (fun key =>
    (key, ((agentRows rows).filter (fun r => agentKeyOf r = key)).length))
  let top := (sortLe (fun a b => b.2 ≤ a.2) groups).take lim
  let agents : List AgentDetail := top.map (fun g =>
    { regNum := g.1.1
      name := g.1.2
      totalTransactions := g.2
      topPropertyType :=
        (topValueFor rows g.1.1 Row.property_type).getD (some "Unknown", 0)
      topTransactionType :=
        (topValueFor rows g.1.1 Row.transaction_type).getD (some "Unknown", 0)
      topRepresentation :=
        (topValueFor rows g.1.1 Row.represented).getD (some "Unknown", 0)
      topTown := topTownFor rows g.1.1 })
  let totalTx := (agents.map (fun a => a.totalTransactions)).sum
  let topShare :=
    match agents with
    | [] => 0
    | a0 :: _ => if totalTx > 0 then pctTenths a0.totalTransactions totalTx else 0
  let top10Tx := ((agents.take 10).map (fun a => a.totalTransactions)).sum
  let top10Share := if totalTx > 0 then pctTenths top10Tx totalTx else 0
  { total := ((agentRows rows).map (fun r => r.salesperson_reg_num.getD "")).dedup.length
    showing := agents.length
    agents := agents
    statistics :=
      { averageTransactions := jsToFixed0 totalTx agents.length
        topAgentMarketShareTenths := topShare
        top10MarketShareTenths := top10Share
        totalTransactions := totalTx } }

/-! ### Concrete data used by counterexamples and witnesses -/

/-- A minimal row carrying only a property type. -/
def rowOfPT (pt : String) : Row :=
  { salesperson_name := none, transaction_date := none,
    salesperson_reg_num := none, property_type := some pt,
    transaction_type := none, represented := none,
    town := none, district := none, general_location := none }

/-- A fully populated single transaction. -/
def exRow : Row :=
  { salesperson_name := some "Alice", transaction_date := some "JAN-2024",
    salesperson_reg_num := some "R1", property_type := some "HDB",
    transaction_type := some "RESALE", represented := some "BUYER",
    town := some "TAMPINES", district := some "D18",
    general_location := some "EAST" }

/-- A `top_agents` table with 251 distinct single-transaction agents. -/
def bigTable : List TopAgentRow :=
  (List.range 251).map (fun i =>
    { regNum := toString i, name := none, totalTransactions := 1,
      lastTransaction := none })

/-! ## Theorems -/

/-- C5: for every GET response body, the attached entity-tag is the quoted
hex digest of the serialized body (a pure function of the content, hence
stable across processes); a request whose `If-None-Match` equals that tag
gets a 304 with no body; any other request gets the body with the tag
attached. The digest primitive (`crypto` MD5) is abstracted as `md5hex`. -/
theorem C5_etag_conditional (md5hex : String → String) (inm : Option String)
    (priorStatus : Nat) (body : String) :
    (etagJson md5hex inm priorStatus body).etag
        = some ("\"" ++ md5hex body ++ "\"") ∧
    (inm = some (generateETag md5hex body) →
      (etagJson md5hex inm priorStatus body).status = 304 ∧
      (etagJson md5hex inm priorStatus body).body = none) ∧
    (inm ≠ some (generateETag md5hex body) →
      (etagJson md5hex inm priorStatus body).status = priorStatus ∧
      (etagJson md5hex inm priorStatus body).body = some body) := by
  unfold etagJson generateETag
  by_cases h : inm = some ("\"" ++ md5hex body ++ "\"")
  · simp [h, generateETag]
  · simp [h, generateETag]

theorem C5_etag_conditional_witness :
    (etagJson id (some "\"x\"") 200 "x").status = 304 ∧
    (etagJson id none 200 "x").body = some "x" :=
  ⟨((C5_etag_conditional id (some "\"x\"") 200 "x").2.1 (by decide)).1,
   ((C5_etag_conditional id none 200 "x").2.2 (by decide)).2⟩

/-- C8 fails on the code: `getCacheKey` uses the raw request line with no
query-parameter sorting, so two requests whose query strings carry the
same parameter-value pairs in different orders get different cache keys
(the second request misses). -/
theorem C8_counterexample :
    (queryParams "/api/datasets/x/data?page=1&limit=50").Perm
      (queryParams "/api/datasets/x/data?limit=50&page=1") ∧
    getCacheKey "GET" "/api/datasets/x/data?page=1&limit=50" ≠
      getCacheKey "GET" "/api/datasets/x/data?limit=50&page=1" := by
  constructor
  · decide
  · decide

/-- C8 amended: the cache key is the verbatim `METHOD:originalUrl` string;
two GET requests share a cache key exactly when their raw URLs are
identical, so no canonicalization of query-parameter order happens. -/
theorem C8_amended (m u v : String) (h : u ≠ v) :
    getCacheKey m u = m ++ ":" ++ u ∧
    getCacheKey m u ≠ getCacheKey m v := by
  refine ⟨rfl, fun he => h ?_⟩
  have hd := congrArg String.data he
  simp only [getCacheKey, String.data_append, List.append_assoc] at hd
  exact String.ext (List.append_cancel_left (List.append_cancel_left hd))

theorem C8_amended_witness :
    getCacheKey "GET" "/a?x=1&y=2" = "GET" ++ ":" ++ "/a?x=1&y=2" ∧
    getCacheKey "GET" "/a?x=1&y=2" ≠ getCacheKey "GET" "/a?y=2&x=1" :=
  C8_amended "GET" "/a?x=1&y=2" "/a?y=2&x=1" (by decide)

/-- Pointwise agreement of the spliced `WHERE` evaluation with the spec's
scalar-equality / array-membership predicate. -/
theorem evalWhere_eq_specMatches (r : Row) :
    ∀ f : FilterObj, (buildWhereClauses f).all (evalClause r) = specMatches r f
  | [] => rfl
  | (k, v) :: f => by
    have ih := evalWhere_eq_specMatches r f
    cases v with
    | scalar s =>
      cases h : r.col k <;>
        simp [buildWhereClauses, clauseOf, specMatches, evalClause, h, ih,
          List.all_cons] <;>
        simp [buildWhereClauses, clauseOf, specMatches] at ih <;> rw [ih]
    | values ss =>
      cases h : r.col k <;>
        simp [buildWhereClauses, clauseOf, specMatches, evalClause, h, ih,
          List.all_cons] <;>
        simp [buildWhereClauses, clauseOf, specMatches] at ih <;> rw [ih]

/-- C3: for a well-formed filter whose keys are filterable columns, the
`pagination.total` of `/data` (a `COUNT(*)` under the spliced `WHERE`)
equals the number of rows satisfying the spec's predicate — conjunction
across keys, equality on scalars, membership on arrays. -/
theorem C3_total_matches_filter (rows : List Row) (f : FilterObj)
    (hvalid : ∀ kv ∈ f, kv.1 ∈ allowedFilterKeys) :
    dataEndpointTotal rows f =
      (rows.filter (fun r => specMatches r f)).length := by
  unfold dataEndpointTotal
  congr 1
  apply List.filter_congr
  intro r _
  exact evalWhere_eq_specMatches r f

theorem C3_total_matches_filter_witness :
    dataEndpointTotal
        [{ salesperson_name := none, transaction_date := none,
           salesperson_reg_num := none, property_type := some "HDB",
           transaction_type := none, represented := none,
           town := some "BEDOK", district := none, general_location := none }]
        [("property_type", .values ["HDB", "LANDED"]), ("town", .scalar "BEDOK")] =
      (List.filter
        (fun r => specMatches r
          [("property_type", .values ["HDB", "LANDED"]), ("town", .scalar "BEDOK")])
        [{ salesperson_name := none, transaction_date := none,
           salesperson_reg_num := none, property_type := some "HDB",
           transaction_type := none, represented := none,
           town := some "BEDOK", district := none, general_location := none }]).length :=
  C3_total_matches_filter _ _ (by decide)


/-! ### Map and LRU helper lemmas -/

theorem mapGet_map_update (k : String) (new : CacheEntry) (hnew : new.key = k) :
    ∀ es : List CacheEntry,
      mapGet (es.map (fun e => if e.key = k then new else e)) k
        = if mapHas es k then some new else mapGet es k
  | [] => by simp [mapGet, mapHas]
  | e :: es => by
    have ih := mapGet_map_update k new hnew es
    by_cases he : e.key = k
    · simp [mapGet, mapHas, List.find?_cons, he, hnew]
    · simp only [mapGet, mapHas, List.map_cons, List.find?_cons,
        List.any_cons] at ih ⊢
      rw [if_neg he]
      rw [decide_eq_false he]
      simp only [Bool.false_or]
      exact ih

theorem mapHas_eq_isSome (k : String) :
    ∀ es : List CacheEntry, mapHas es k = (mapGet es k).isSome
  | [] => rfl
  | e :: es => by
    by_cases he : e.key = k
    · simp [mapGet, mapHas, List.find?_cons, he]
    · have ih := mapHas_eq_isSome k es
      simp only [mapGet, mapHas] at ih
      simp [mapGet, mapHas, List.find?_cons, he, ih]

theorem mapGet_mapSet_self (es : List CacheEntry) (k v : String) (exp : Nat) :
    mapGet (mapSet es k v exp) k = some ⟨k, v, exp⟩ := by
  unfold mapSet
  by_cases h : mapHas es k = true
  · rw [if_pos h, mapGet_map_update k ⟨k, v, exp⟩ rfl es, if_pos h]
  · rw [if_neg h]
    have hnone : mapGet es k = none := by
      have hs := mapHas_eq_isSome k es
      rw [Bool.not_eq_true] at h
      rw [h] at hs
      cases hg : mapGet es k with
      | none => rfl
      | some x => rw [hg] at hs; simp at hs
    unfold mapGet at hnone ⊢
    rw [List.find?_append, hnone]
    simp [List.find?_cons]

theorem mapHas_mapDelete_self (es : List CacheEntry) (k : String) :
    mapHas (mapDelete es k) k = false := by
  rw [Bool.eq_false_iff]
  intro h
  rcases List.any_eq_true.1 h with ⟨e, he, hk⟩
  rcases List.mem_filter.1 he with ⟨_, hne⟩
  rw [decide_eq_true_iff] at hk
  simp [hk] at hne

theorem mapHas_false_tail (es : List CacheEntry) (k : String)
    (h : mapHas es k = false) : mapHas es.tail k = false := by
  cases es with
  | nil => rfl
  | cons e es =>
    simp only [mapHas, List.any_cons, Bool.or_eq_false_iff] at h
    exact h.2

theorem length_mapSet (es : List CacheEntry) (k v : String) (exp : Nat) :
    (mapSet es k v exp).length =
      if mapHas es k then es.length else es.length + 1 := by
  unfold mapSet
  by_cases h : mapHas es k <;> simp [h]

theorem length_mapDelete_lt (es : List CacheEntry) (k : String)
    (h : mapHas es k = true) : (mapDelete es k).length < es.length := by
  apply List.length_filter_lt_length_iff_exists.2
  rcases List.any_eq_true.1 h with ⟨e, he, hk⟩
  rw [decide_eq_true_iff] at hk
  exact ⟨e, he, by simp [hk]⟩

theorem lruGet_lruSet_self (st : LRUState) (k v : String) (c : Option Nat)
    (now : Nat) : ((st.set k v c now).get k now).1 = some v := by
  unfold LRUState.set LRUState.get
  simp only [mapGet_mapSet_self]
  rw [if_neg (Nat.not_lt.2 (Nat.le_add_right now (resolveTTL c st.ttl)))]

theorem step_maxSize (st : LRUState) (op : CacheOp) :
    (st.step op).maxSize = st.maxSize := by
  cases op with
  | opGet k now =>
    show ((st.get k now).2).maxSize = st.maxSize
    unfold LRUState.get
    cases mapGet st.entries k with
    | none => rfl
    | some item => by_cases ht : now > item.expiry <;> simp [ht]
  | opSet k v c now => rfl

theorem step_entries_le (st : LRUState) (op : CacheOp)
    (hmax : 1 ≤ st.maxSize) (h : st.entries.length ≤ st.maxSize) :
    (st.step op).entries.length ≤ st.maxSize := by
  cases op with
  | opGet k now =>
    show ((st.get k now).2).entries.length ≤ st.maxSize
    unfold LRUState.get
    cases hg : mapGet st.entries k with
    | none => simpa using h
    | some item =>
      by_cases ht : now > item.expiry
      · simp only [ht, if_true]
        calc (mapDelete st.entries k).length
            ≤ st.entries.length := List.length_filter_le _ _
          _ ≤ st.maxSize := h
      · have hhas : mapHas st.entries k = true := by
          rw [mapHas_eq_isSome, hg]; rfl
        have hlt := length_mapDelete_lt st.entries k hhas
        simp only [ht, if_false, length_mapSet, mapHas_mapDelete_self,
          Bool.false_eq_true]
        omega
  | opSet k v c now =>
    show (st.set k v c now).entries.length ≤ st.maxSize
    unfold LRUState.set
    by_cases hcond : st.entries.length ≥ st.maxSize ∧ mapHas st.entries k = false
    · rw [if_pos hcond]
      rw [length_mapSet, if_neg (by simp [mapHas_false_tail _ _ hcond.2])]
      have hne : st.entries ≠ [] := by
        intro hnil
        rw [hnil] at hcond
        simp at hcond
        omega
      have hlt := List.length_tail st.entries
      have hpos : 0 < st.entries.length := List.length_pos.2 hne
      have hge := hcond.1
      omega
    · rw [if_neg hcond]
      rw [length_mapSet]
      by_cases hhas : mapHas st.entries k = true
      · simp [hhas]
        omega
      · have hlen : ¬ st.entries.length ≥ st.maxSize := fun hge =>
          hcond ⟨hge, Bool.not_eq_true _ ▸ hhas⟩
        simp [hhas]
        omega

theorem runOps_entries_le :
    ∀ (ops : List CacheOp) (st : LRUState), 1 ≤ st.maxSize →
      st.entries.length ≤ st.maxSize →
      (runOps st ops).entries.length ≤ st.maxSize
  | [], _, _, h => h
  | op :: ops, st, hmax, h => by
    have h2 := step_maxSize st op
    have hrec := runOps_entries_le ops (st.step op)
      (by rw [h2]; exact hmax)
      (by rw [h2]; exact step_entries_le st op hmax h)
    rw [h2] at hrec
    exact hrec


/-- C4: cache invariants of `LRUCache`. (1) Starting from the empty pools,
any sequence of get/set operations leaves at most 200 entries in the API
pool and at most 50 in the stats pool. (2) A `set` at capacity with a new
key evicts exactly the front (least-recently-used) entry of the map.
(3) A fresh `get` promotes its entry to the most-recently-used end and
returns its value. (4) A `get` whose entry has expired deletes the entry
and returns absence. (5) An expired value is never returned: a `get`
returning a value implies the stored entry's expiry has not passed. -/
theorem C4_lru_invariants :
    (∀ ops : List CacheOp,
        (runOps apiCacheInit ops).entries.length ≤ 200 ∧
        (runOps statsCacheInit ops).entries.length ≤ 50) ∧
    (∀ (st : LRUState) (e : CacheEntry) (rest : List CacheEntry)
        (k v : String) (c : Option Nat) (now : Nat),
        st.entries = e :: rest → st.entries.length = st.maxSize →
        mapHas st.entries k = false →
        (st.set k v c now).entries =
          rest ++ [⟨k, v, now + resolveTTL c st.ttl⟩]) ∧
    (∀ (st : LRUState) (k : String) (now : Nat) (item : CacheEntry),
        mapGet st.entries k = some item → ¬ now > item.expiry →
        (st.get k now).1 = some item.value ∧
        (st.get k now).2.entries =
          mapDelete st.entries k ++ [⟨k, item.value, item.expiry⟩]) ∧
    (∀ (st : LRUState) (k : String) (now : Nat) (item : CacheEntry),
        mapGet st.entries k = some item → now > item.expiry →
        (st.get k now).1 = none ∧
        (st.get k now).2.entries = mapDelete st.entries k) ∧
    (∀ (st : LRUState) (k : String) (now : Nat) (v : String),
        (st.get k now).1 = some v →
        ∃ item, mapGet st.entries k = some item ∧ item.value = v ∧
          now ≤ item.expiry) := by
  refine ⟨?_, ?_, ?_, ?_, ?_⟩
  · intro ops
    exact ⟨runOps_entries_le ops apiCacheInit (by decide) (by decide),
      runOps_entries_le ops statsCacheInit (by decide) (by decide)⟩
  · intro st e rest k v c now hes hlen hhas
    have hrest : mapHas rest k = false := by
      have hht := mapHas_false_tail st.entries k hhas
      rw [hes] at hht
      exact hht
    unfold LRUState.set
    rw [if_pos ⟨le_of_eq hlen.symm, hhas⟩, hes]
    show mapSet rest k v (now + resolveTTL c st.ttl) = _
    unfold mapSet
    rw [if_neg (by simp [hrest])]
  · intro st k now item hg ht
    unfold LRUState.get
    simp only [hg]
    rw [if_neg ht]
    refine ⟨rfl, ?_⟩
    show mapSet (mapDelete st.entries k) k item.value item.expiry = _
    unfold mapSet
    rw [if_neg (by simp [mapHas_mapDelete_self])]
  · intro st k now item hg ht
    unfold LRUState.get
    simp only [hg]
    rw [if_pos ht]
    exact ⟨rfl, rfl⟩
  · intro st k now v hv
    unfold LRUState.get at hv
    cases hg : mapGet st.entries k with
    | none => rw [hg] at hv; simp at hv
    | some item =>
      simp only [hg] at hv
      by_cases ht : now > item.expiry
      · rw [if_pos ht] at hv
        simp at hv
      · rw [if_neg ht] at hv
        exact ⟨item, rfl, by simpa using hv, Nat.not_lt.1 ht⟩

theorem C4_lru_invariants_witness :
    (LRUState.set ⟨[⟨"a", "1", 100⟩], 1, 7, 0, 0⟩ "b" "2" none 5).entries
        = [⟨"b", "2", 12⟩] ∧
    ((LRUState.get ⟨[⟨"a", "1", 100⟩], 200, 7, 0, 0⟩ "a" 200).1 = none) ∧
    ((LRUState.get ⟨[⟨"a", "1", 100⟩], 200, 7, 0, 0⟩ "a" 50).1 = some "1") :=
  ⟨by
    have h := C4_lru_invariants.2.1 ⟨[⟨"a", "1", 100⟩], 1, 7, 0, 0⟩
      ⟨"a", "1", 100⟩ [] "b" "2" none 5 rfl rfl (by decide)
    simpa using h,
   (C4_lru_invariants.2.2.2.1 ⟨[⟨"a", "1", 100⟩], 200, 7, 0, 0⟩ "a" 200
      ⟨"a", "1", 100⟩ (by decide) (by decide)).1,
   (C4_lru_invariants.2.2.1 ⟨[⟨"a", "1", 100⟩], 200, 7, 0, 0⟩ "a" 50
      ⟨"a", "1", 100⟩ (by decide) (by decide)).1⟩

/-- C10: the cache middleware's wrapped `res.json` stores the body if and
only if the handler's status code is in `[200, 300)`. On a 4xx/5xx both
pools are left untouched; on a 2xx the selected pool holds the body under
the request's key (an immediate `get` returns it) and the other pool is
untouched. -/
theorem C10_cache_only_success (pools : CachePools) (path key : String)
    (status : Nat) (body : String) (now : Nat) :
    (¬(200 ≤ status ∧ status < 300) →
      cacheMiddlewareJson pools path key status body now = pools) ∧
    (200 ≤ status ∧ status < 300 →
      (selectStats path = true →
        (cacheMiddlewareJson pools path key status body now).api = pools.api ∧
        ((cacheMiddlewareJson pools path key status body now).stats.get
            key now).1 = some body) ∧
      (selectStats path = false →
        (cacheMiddlewareJson pools path key status body now).stats =
          pools.stats ∧
        ((cacheMiddlewareJson pools path key status body now).api.get
            key now).1 = some body)) := by
  unfold cacheMiddlewareJson
  by_cases h : 200 ≤ status ∧ status < 300
  · by_cases hp : selectStats path = true
    · simp [h, hp, lruGet_lruSet_self]
    · rw [Bool.not_eq_true] at hp
      simp [h, hp, lruGet_lruSet_self]
  · simp [h]

theorem C10_cache_only_success_witness :
    cacheMiddlewareJson ⟨apiCacheInit, statsCacheInit⟩ "/api/datasets"
        "GET:/api/datasets" 500 "oops" 0 = ⟨apiCacheInit, statsCacheInit⟩ ∧
    ((cacheMiddlewareJson ⟨apiCacheInit, statsCacheInit⟩ "/api/datasets"
        "GET:/api/datasets" 200 "ok" 0).api.get "GET:/api/datasets" 0).1 =
      some "ok" :=
  ⟨(C10_cache_only_success ⟨apiCacheInit, statsCacheInit⟩ "/api/datasets"
      "GET:/api/datasets" 500 "oops" 0).1 (by omega),
   (((C10_cache_only_success ⟨apiCacheInit, statsCacheInit⟩ "/api/datasets"
      "GET:/api/datasets" 200 "ok" 0).2 (by omega)).2 (by decide)).2⟩


/-! ### Time-series string lemmas -/

theorem strTake3_append (m rest : String) (hm : m.data.length = 3) :
    strTake3 (m ++ rest) = m := by
  unfold strTake3
  rw [String.data_append, List.take_left' hm]

theorem strLast4_append (x y : String) (hy : y.data.length = 4) :
    strLast4 (x ++ y) = y := by
  unfold strLast4
  rw [String.data_append, List.reverse_append,
    List.take_left' (by rw [List.length_reverse]; exact hy),
    List.reverse_reverse]

/-- C6: for every time-series request, a date `MMM-YYYY` whose month name
is in the fixed table is bucketed to `YYYY-MM` (`period = month`, the
default) or `YYYY` (`period = year`); a row with a missing or sentinel
`'-'` date contributes to no bucket; and the returned series is ascending
in the normalized period key (`NULL` periods first, as SQLite orders). -/
theorem C6_timeseries (mon mm y : String) (rows : List Row) (r : Row)
    (period : String) (hm : (mon, mm) ∈ MONTH_MAP) (hy : y.data.length = 4)
    (hr : r.transaction_date = none ∨ r.transaction_date = some "-") :
    periodExpr "month" (mon ++ "-" ++ y) = some (y ++ "-" ++ mm) ∧
    periodExpr "year" (mon ++ "-" ++ y) = some y ∧
    timeseriesSeries period (r :: rows) = timeseriesSeries period rows ∧
    List.Chain' (fun a b => optLe a.1 b.1 = true)
      (timeseriesSeries period rows) := by
  have hml : mon.data.length = 3 ∧ monthLookup mon = some mm := by
    have hall : ∀ p ∈ MONTH_MAP, p.1.data.length = 3 ∧ monthLookup p.1 = some p.2 := by
      decide
    exact hall (mon, mm) hm
  have hlast : strLast4 (mon ++ "-" ++ y) = y := strLast4_append (mon ++ "-") y hy
  have htake : strTake3 (mon ++ "-" ++ y) = mon := by
    rw [String.append_assoc]
    exact strTake3_append mon ("-" ++ y) hml.1
  have hinc : includedDates (r :: rows) = includedDates rows := by
    rcases hr with h | h <;> simp [includedDates, List.filterMap_cons, h]
  refine ⟨?_, ?_, ?_, ?_⟩
  · unfold periodExpr
    rw [if_neg (by decide)]
    unfold periodExprMonth
    rw [htake, hml.2, hlast]
    rfl
  · unfold periodExpr
    rw [if_pos rfl, hlast]
  · unfold timeseriesSeries
    rw [hinc]
  · unfold timeseriesSeries
    exact (List.chain'_map _).2 (chain_sortLe optLe optLe_total _)

theorem C6_timeseries_witness :
    periodExpr "month" ("OCT" ++ "-" ++ "2017") = some ("2017" ++ "-" ++ "10") ∧
    periodExpr "year" ("OCT" ++ "-" ++ "2017") = some "2017" ∧
    timeseriesSeries "month"
        ({ exRow with transaction_date := some "-" } :: [exRow]) =
      timeseriesSeries "month" [exRow] ∧
    List.Chain' (fun a b => optLe a.1 b.1 = true)
      (timeseriesSeries "month" [exRow]) :=
  C6_timeseries "OCT" "10" "2017" [exRow]
    { exRow with transaction_date := some "-" } "month"
    (by decide) (by decide) (Or.inr rfl)

/-- C7 fails on the code: the single-dimension analytics query orders by
`count DESC` with no secondary key, so a result whose equal-count entries
appear in descending dimension order is admissible. -/
theorem C7_counterexample :
    validAnalyticsResult [rowOfPT "A", rowOfPT "B"] "property_type"
      [("B", 1), ("A", 1)] ∧
    ¬ tiesAscending [("B", 1), ("A", 1)] := by
  refine ⟨⟨by decide, List.chain'_cons.2 ⟨Nat.le_refl 1, List.chain'_singleton _⟩⟩, ?_⟩
  intro h
  have hR := (List.pairwise_cons.1 h).1 ("A", 1) (by simp)
  have hlt : ("B" : String) < "A" := hR rfl
  rw [String.lt_iff_toList_lt] at hlt
  cases hlt with
  | rel hr => exact absurd hr (by decide)

/-- C7 amended: the returned data (and the chart list derived from it in
order) is sorted by count descending; the relative order of entries with
equal counts is not specified by the query — every count-descending
arrangement of the grouped counts is admissible, and distinct admissible
outputs exist. -/
theorem C7_amended :
    (∀ (rows : List Row) (dim : String) (out : List (String × Nat)),
        validAnalyticsResult rows dim out → countDescOrder out) ∧
    (∀ (rows : List Row) (dim : String),
        validAnalyticsResult rows dim
          (sortLe (fun a b => decide (b.2 ≤ a.2))
            (groupCounts (dimValues rows dim)))) ∧
    (∃ (rows : List Row) (dim : String) (out1 out2 : List (String × Nat)),
        validAnalyticsResult rows dim out1 ∧
        validAnalyticsResult rows dim out2 ∧ out1 ≠ out2) := by
  refine ⟨fun rows dim out h => h.2, ?_, ?_⟩
  · intro rows dim
    refine ⟨perm_sortLe _ _, ?_⟩
    have hchain := chain_sortLe (fun (a b : String × Nat) => decide (b.2 ≤ a.2))
      (fun a b => (Nat.le_total b.2 a.2).imp decide_eq_true decide_eq_true)
      (groupCounts (dimValues rows dim))
    exact List.Chain'.imp (fun a b hab => of_decide_eq_true hab) hchain
  · refine ⟨[rowOfPT "A", rowOfPT "B"], "property_type",
      [("A", 1), ("B", 1)], [("B", 1), ("A", 1)],
      ⟨by decide, List.chain'_cons.2 ⟨Nat.le_refl 1, List.chain'_singleton _⟩⟩,
      ⟨by decide, List.chain'_cons.2 ⟨Nat.le_refl 1, List.chain'_singleton _⟩⟩,
      by decide⟩

theorem C7_amended_witness :
    countDescOrder [("A", (2 : Nat)), ("B", 1)] :=
  C7_amended.1 [rowOfPT "A", rowOfPT "A", rowOfPT "B"] "property_type"
    [("A", 2), ("B", 1)]
    ⟨by decide,
     List.chain'_cons.2 ⟨by omega, List.chain'_singleton _⟩⟩

/-- Shared helper: the number of agents shown by the fast path is the
requested (defaulted) limit clipped only by the table size. -/
theorem showing_topAgentsFastPath (table : List TopAgentRow) (rows : List Row)
    (p : Option Nat) :
    (topAgentsFastPath table rows p).showing =
      min (effectiveLimit p) table.length := by
  unfold topAgentsFastPath
  simp [List.length_map, List.length_take, length_sortLe]

/-- C9 fails on the code: no 250 cap exists — the requested limit binds
directly into `LIMIT ?`, so a request with `limit = 300` against a table
of 251 agents returns 251 agents. -/
theorem C9_counterexample :
    (topAgentsFastPath bigTable [] (some 300)).showing = 251 ∧
    ¬ ((topAgentsFastPath bigTable [] (some 300)).showing ≤ 250) := by
  have h := showing_topAgentsFastPath bigTable [] (some 300)
  have hlen : bigTable.length = 251 := by
    simp [bigTable]
  rw [hlen] at h
  simp only [effectiveLimit, Option.getD] at h
  constructor
  · rw [h]
    omega
  · rw [h]
    omega

/-- C9 amended: the limit defaults to 50 when the parameter is absent, and
is otherwise used verbatim with no cap: the response holds
`min(limit, number of agents)` entries, which can exceed 250. -/
theorem C9_amended :
    effectiveLimit none = 50 ∧
    ∀ (table : List TopAgentRow) (rows : List Row) (l : Nat),
      (topAgentsFastPath table rows (some l)).showing = min l table.length :=
  ⟨rfl, fun table rows l => showing_topAgentsFastPath table rows (some l)⟩

/-- C2 fails on the code: on the very same no-filter, no-search request
the fast path pins `topRepresentation` to `['Unknown', 0]`, `topTown` to
`null` and both market-share statistics to `0`, while the slow path
computes them, so the two bodies are not deep-equal (here: 0 vs 100.0%
top-agent market share on a one-agent dataset). -/
theorem C2_counterexample :
    (topAgentsFastPath (topAgentsTable [exRow]) [exRow] (some 50)).agents.map
        (fun a => a.topRepresentation) = [(some "Unknown", 0)] ∧
    (topAgentsSlowPath [exRow] (some 50)).agents.map
        (fun a => a.topRepresentation) = [(some "BUYER", 1)] ∧
    (topAgentsFastPath (topAgentsTable [exRow]) [exRow]
        (some 50)).statistics.topAgentMarketShareTenths = 0 ∧
    (topAgentsSlowPath [exRow] (some 50)).statistics.topAgentMarketShareTenths
        = 1000 ∧
    topAgentsFastPath (topAgentsTable [exRow]) [exRow] (some 50) ≠
      topAgentsSlowPath [exRow] (some 50) := by
  refine ⟨?_, ?_, ?_, ?_, ?_⟩ <;> decide

/-- C2 amended: fast-slow agreement can hold at most for the ranking
fields; on the fast path `topRepresentation`, `topTown` and both
market-share statistics are constants (`['Unknown', 0]`, `null`, `0`,
`0`) for every dataset, table and limit, so deep-equality with the slow
path fails whenever the slow path's values differ from these constants. -/
theorem C2_amended (table : List TopAgentRow) (rows : List Row)
    (p : Option Nat) :
    ((topAgentsFastPath table rows p).agents.all
      (fun a => a.topRepresentation = (some "Unknown", 0) ∧
        a.topTown = none)) = true ∧
    (topAgentsFastPath table rows p).statistics.topAgentMarketShareTenths
        = 0 ∧
    (topAgentsFastPath table rows p).statistics.top10MarketShareTenths = 0 := by
  refine ⟨?_, rfl, rfl⟩
  rw [List.all_eq_true]
  intro a ha
  simp only [topAgentsFastPath] at ha
  rcases List.mem_map.1 ha with ⟨x, _, rfl⟩
  simp

end CeaLive
